import Mathlib

/-!
Shallow embedding of the binNMU decision engine of drt-tools
(src/src/main.rs) and its version handling library
(src/assorted-debian-utils/src/version.rs), with theorems checking the
natural-language specification against the code.

Strings are modelled as `List Char` where character-level reasoning is
needed; Rust's `char::is_alphanumeric` and `char::is_whitespace` cover
Unicode while Lean's `Char.isAlphanum`/`Char.isWhitespace` are
ASCII-oriented, but every input appearing in the claims is ASCII, where
the two agree.  `u32` values are modelled as `Nat` with explicit
`% 2 ^ 32` wrapping where Rust (release-mode) overflow semantics matter.
-/

/-! ### String utilities mirroring the Rust std functions used -/

/-- Model of Rust `str::split_once`: split at the first occurrence of
`sep`, returning the parts before and after it. -/
def splitOnce : List Char → Char → Option (List Char × List Char)
  | [], _ => none
  | c :: rest, sep =>
    if c = sep then some ([], rest)
    else
      match splitOnce rest sep with
      | some (a, b) => some (c :: a, b)
      | none => none

/-- Model of Rust `str::rsplit_once`: split at the last occurrence of
`sep`. -/
def rsplitOnce (l : List Char) (sep : Char) : Option (List Char × List Char) :=
  match splitOnce l.reverse sep with
  | some (a, b) => some (b.reverse, a.reverse)
  | none => none

/-- Model of Rust `str::ends_with` for string patterns. -/
def strEndsWith (s pat : String) : Bool :=
  List.isSuffixOf pat.data s.data

/-- Strip a single leading `+`, as Rust's unsigned `FromStr` does before
reading the digits. -/
def stripPlus (l : List Char) : List Char :=
  match l with
  | c :: rest => if c = '+' then rest else l
  | [] => l

/-- Value of a digit string read left to right in base 10. -/
def digitsVal (l : List Char) : Nat :=
  l.foldl (fun acc c => 10 * acc + (c.toNat - 48)) 0

/-- Model of Rust `u32::from_str`: an optional leading `+`, then at
least one ASCII digit, rejecting values that do not fit in 32 bits. -/
def parseU32 (l : List Char) : Option Nat :=
  let core := stripPlus l
  if core = [] then none
  else if core.all Char.isDigit then
    if digitsVal core < 4294967296 then some (digitsVal core) else none
  else none

/-- Decimal rendering of a natural number, as Rust's `Display` for
`u32` produces it. -/
def natToChars (n : Nat) : List Char :=
  if n = 0 then ['0'] else ((Nat.digits 10 n).map Nat.digitChar).reverse

/-! ### version.rs: `PackageVersion` -/

/-- Errors of `version.rs` (`VersionError`). -/
inductive VersionError where
  | invalidEpoch
  | invalidUpstreamVersion
  | invalidDebianRevision
deriving DecidableEq

/-- A Debian package version (`PackageVersion` in version.rs). -/
structure PackageVersion where
  epoch : Option Nat
  upstream_version : List Char
  debian_revision : Option (List Char)
deriving DecidableEq

instance {ε α : Type} [DecidableEq ε] [DecidableEq α] : DecidableEq (Except ε α) :=
  fun a b =>
    match a, b with
    | .ok x, .ok y =>
      if h : x = y then .isTrue (by rw [h]) else .isFalse (by intro hh; cases hh; exact h rfl)
    | .error x, .error y =>
      if h : x = y then .isTrue (by rw [h]) else .isFalse (by intro hh; cases hh; exact h rfl)
    | .ok _, .error _ => .isFalse (by intro hh; cases hh)
    | .error _, .ok _ => .isFalse (by intro hh; cases hh)

/-- The character set allowed in an upstream version: the Rust check is
`!c.is_alphanumeric() && !".+-~".contains(c)` for a violation. -/
def isUpstreamChar (c : Char) : Bool :=
  c.isAlphanum || c = '.' || c = '+' || c = '-' || c = '~'

/-- The character set allowed in a Debian revision: the Rust check is
`!c.is_alphanumeric() && !".+~".contains(c)` for a violation. -/
def isRevisionChar (c : Char) : Bool :=
  c.isAlphanum || c = '.' || c = '+' || c = '~'

/-- The revision validity test of `PackageVersion::new`: an absent
revision is fine, a present one must be non-empty over the revision
character set. -/
def revisionOk : Option (List Char) → Bool
  | some r => !(decide (r = []) || r.any (fun c => !(isRevisionChar c)))
  | none => true

/-- `PackageVersion::new`: validate the components. -/
def PackageVersion.new (epoch : Option Nat) (upstream : List Char)
    (rev : Option (List Char)) : Except VersionError PackageVersion :=
  if upstream = [] || upstream.any (fun c => !(isUpstreamChar c)) then
    .error .invalidUpstreamVersion
  else if !(revisionOk rev) then
    .error .invalidDebianRevision
  else .ok ⟨epoch, upstream, rev⟩

/-- `PackageVersion::epoch_or_0`. -/
def PackageVersion.epoch_or_0 (v : PackageVersion) : Nat :=
  v.epoch.getD 0

/-- `PartialEq for PackageVersion` (without the libdpkg-sys feature):
compare epoch-or-0, upstream version and revision. -/
def pvEq (a b : PackageVersion) : Bool :=
  decide (a.epoch_or_0 = b.epoch_or_0 ∧ a.upstream_version = b.upstream_version ∧
    a.debian_revision = b.debian_revision)

/-- `TryFrom<&str> for PackageVersion`: `split_once(":")` (the FIRST
colon) for the epoch, then `rsplit_once("-")` (the last hyphen) for the
revision, then validation via `new`. -/
def PackageVersion.tryFrom (value : List Char) : Except VersionError PackageVersion :=
  match splitOnce value ':' with
  | some (epochStr, newValue) =>
    match parseU32 epochStr with
    | none => .error .invalidEpoch
    | some e =>
      match rsplitOnce newValue '-' with
      | some (nv, rev) => PackageVersion.new (some e) nv (some rev)
      | none => PackageVersion.new (some e) newValue none
  | none =>
    match rsplitOnce value '-' with
    | some (nv, rev) => PackageVersion.new none nv (some rev)
    | none => PackageVersion.new none value none

/-- Modelled from the spec: the spec's §4.1 description of parsing,
which claims the epoch is extracted at the LAST colon; it differs from
`PackageVersion.tryFrom` only in using `rsplitOnce` for the colon. -/
def specTryFromLastColon (value : List Char) : Except VersionError PackageVersion :=
  match rsplitOnce value ':' with
  | some (epochStr, newValue) =>
    match parseU32 epochStr with
    | none => .error .invalidEpoch
    | some e =>
      match rsplitOnce newValue '-' with
      | some (nv, rev) => PackageVersion.new (some e) nv (some rev)
      | none => PackageVersion.new (some e) newValue none
  | none =>
    match rsplitOnce value '-' with
    | some (nv, rev) => PackageVersion.new none nv (some rev)
    | none => PackageVersion.new none value none

/-- `Display for PackageVersion`: `[epoch:]upstream[-revision]`. -/
def PackageVersion.render (v : PackageVersion) : List Char :=
  (match v.epoch with
   | some e => natToChars e ++ [':']
   | none => []) ++
  v.upstream_version ++
  (match v.debian_revision with
   | some r => '-' :: r
   | none => [])

/-! ### main.rs: data model -/

/-- The `Verdict` enumeration of main.rs. -/
inductive Verdict where
  | pass
  | passHinted
  | rejectedNeedsApproval
  | rejectedPermanently
  | rejectedTemporarily
  | rejectedCannotDetermineIfPermanent
deriving DecidableEq

/-- The `Architecture` enumeration of main.rs (including the
architecture-independent pseudo-architecture `all`). -/
inductive Architecture where
  | all
  | amd64
  | arm64
  | armel
  | armhf
  | i386
  | mips64el
  | mipsel
  | ppc64el
  | s390x
deriving DecidableEq

/-- `Display for Architecture`. -/
def archToString : Architecture → String
  | .all => "all"
  | .amd64 => "amd64"
  | .arm64 => "arm64"
  | .armel => "armel"
  | .armhf => "armhf"
  | .i386 => "i386"
  | .mips64el => "mips64el"
  | .mipsel => "mipsel"
  | .ppc64el => "ppc64el"
  | .s390x => "s390x"

/-- The `Component` enumeration of main.rs. -/
inductive Component where
  | main
  | contrib
  | nonFree
deriving DecidableEq

/-- `AgeInfo`: both ages are `u32` in the source; they are modelled as
`Nat` with the deserialization invariant `< 2 ^ 32` stated where
needed. -/
structure AgeInfo where
  age_requirement : Nat
  current_age : Nat
  verdict : Verdict
deriving DecidableEq

/-- `UnspecfiedPolicyInfo` (name as in the source): a verdict-only
record for the open-ended policies. -/
structure UnspecfiedPolicyInfo where
  verdict : Verdict
deriving DecidableEq

/-- `BuiltOnBuildd`: the `HashMap<Architecture, String>` signer map is
modelled as an association list in iteration order. -/
structure BuiltOnBuildd where
  signed_by : List (Architecture × String)
  verdict : Verdict
deriving DecidableEq

/-- `PolicyInfo`: the two named sub-policies plus the flattened
`extras` map, modelled as an association list in iteration order. -/
structure PolicyInfo where
  age : Option AgeInfo
  builtonbuildd : Option BuiltOnBuildd
  extras : List (String × UnspecfiedPolicyInfo)
deriving DecidableEq

/-- `MissingBuilds`. -/
structure MissingBuilds where
  on_architectures : List Architecture
deriving DecidableEq

/-- `ExcusesItem`. -/
structure ExcusesItem where
  is_candidate : Bool
  new_version : String
  old_version : String
  item_name : String
  source : String
  invalidated_by_other_package : Option Bool
  component : Option Component
  missing_builds : Option MissingBuilds
  policy_info : Option PolicyInfo
deriving DecidableEq

/-- `ToBinNMU`: one rebuild directive. -/
structure ToBinNMU where
  source : String
  version : String
  architectures : List Architecture
deriving DecidableEq

/-! ### main.rs: eligibility check -/

/-- Rust release-mode wrapping subtraction on `u32` values
(`a`, `b` assumed `< 2 ^ 32`). -/
def u32sub (a b : Nat) : Nat :=
  (a + 4294967296 - b) % 4294967296

/-- The final clause of `check_if_binnmu_required`: all verdicts in the
open-ended `extras` map must be `PASS`. -/
def checkExtras (p : PolicyInfo) : Bool :=
  p.extras.all (fun q => decide (q.2.verdict = Verdict.pass))

/-- The age clause of `check_if_binnmu_required`: too young iff
`current_age < min(age_requirement / 2, age_requirement - 1)` with
`u32` arithmetic. -/
def checkAge (p : PolicyInfo) : Bool :=
  match p.age with
  | some a =>
    if a.current_age < min (a.age_requirement / 2) (u32sub a.age_requirement 1) then false
    else checkExtras p
  | none => checkExtras p

/-- `check_if_binnmu_required` of main.rs. -/
def check_if_binnmu_required (p : PolicyInfo) : Bool :=
  match p.builtonbuildd with
  | some b => if b.verdict = Verdict.pass then false else checkAge p
  | none => checkAge p

/-- Modelled from the spec: the extras clause of §4.4 eligibility
("true iff every other policy verdict equals pass"). -/
def specExtrasPass (p : PolicyInfo) : Bool :=
  p.extras.all (fun q => decide (q.2.verdict = Verdict.pass))

/-- Modelled from the spec: the age clause of §4.4 eligibility, with the
threshold `min(required_age / 2, required_age - 1)` read as exact
integer arithmetic (floor division, no wrapping). -/
def specAgeGate (p : PolicyInfo) : Bool :=
  match p.age with
  | some a =>
    if (a.current_age : Int) <
        min ((a.age_requirement / 2 : Nat) : Int) ((a.age_requirement : Int) - 1) then false
    else specExtrasPass p
  | none => specExtrasPass p

/-- Modelled from the spec: §4.4 `is_binnmu_required` as the spec words
it, to be compared with `check_if_binnmu_required`. -/
def spec_is_binnmu_required (p : PolicyInfo) : Bool :=
  match p.builtonbuildd with
  | some b => if b.verdict = Verdict.pass then false else specAgeGate p
  | none => specAgeGate p

/-! ### main.rs: the decision loop -/

/-- The component gate of the main loop: only `Main` or unspecified
pass. -/
def componentOk : Option Component → Bool
  | some .main => true
  | none => true
  | _ => false

/-- The official build-daemon signer suffix tested in the main loop. -/
def officialBuilddSuffix : String := "@buildd.debian.org"

/-- Outcome of the main loop body for one `ExcusesItem`: skipped
(`continue`), a directive pushed onto `to_binnmu`, or a Rust panic
(the `.unwrap()` on `builtonbuildd`). -/
inductive StepResult where
  | panic
  | skip
  | emit (d : ToBinNMU)
deriving DecidableEq

/-- The body of the `for item in excuses.sources` loop in `main`:
gates 1-7, the eligibility check, the architecture-set computation and
the `arch:all` gate, in source order. -/
def processItem (item : ExcusesItem) : StepResult :=
  if item.new_version = "-" then .skip
  else if item.new_version = item.old_version then .skip
  else if strEndsWith item.item_name "_pu" then .skip
  else if !(componentOk item.component) then .skip
  else if item.invalidated_by_other_package = some true then .skip
  else if item.missing_builds.isSome then .skip
  else
    match item.policy_info with
    | none => .skip
    | some p =>
      if !(check_if_binnmu_required p) then .skip
      else
        match p.builtonbuildd with
        | none => .panic
        | some b =>
          let archs := (b.signed_by.filter
            (fun q => !(strEndsWith q.2 officialBuilddSuffix))).map Prod.fst
          if Architecture.all ∈ archs then .skip
          else .emit ⟨item.source, item.new_version, archs⟩

/-- The whole loop: the ordered list of directives, or `none` when some
item makes the loop body panic (aborting the run). -/
def collectToBinNMU : List ExcusesItem → Option (List ToBinNMU)
  | [] => some []
  | it :: rest =>
    match processItem it with
    | .panic => none
    | .skip => collectToBinNMU rest
    | .emit d =>
      match collectToBinNMU rest with
      | some ds => some (d :: ds)
      | none => none

/-- `SourcePackages::is_ma_same`, over the set of multi-arch:same
source names modelled as a duplicate-free list. -/
def is_ma_same (sources : List String) (src : String) : Bool :=
  decide (src ∈ sources)

/-- The `println!` line of `main` for one directive. -/
def outputLine (sources : List String) (d : ToBinNMU) : String :=
  "nmu " ++ d.source ++ "_" ++ d.version ++ " . " ++
    (if is_ma_same sources d.source then "ANY"
     else String.intercalate " " (d.architectures.map archToString)) ++
    " . unstable . -m \"Rebuild on buildd\""

/-! ### main.rs: SourcePackages / binary-package index -/

/-- `BinaryPackage`: absent `Source`/`Multi-Arch` fields deserialize to
the empty string in the source. -/
structure BinaryPackage where
  source : String
  package : String
  multi_arch : String
deriving DecidableEq

/-- Model of Rust `str::split_whitespace().next()`: the first maximal
run of non-whitespace characters, if any. -/
def firstToken (l : List Char) : Option (List Char) :=
  let t := l.dropWhile Char.isWhitespace
  if t = [] then none else some (t.takeWhile (fun c => !(c.isWhitespace)))

/-- `firstToken` on `String`s. -/
def firstTokenStr (s : String) : Option String :=
  (firstToken s.data).map List.asString

/-- Insertion into the `HashSet` of source names, modelled as a
duplicate-free list. -/
def insertName (t : String) (s : List String) : List String :=
  if t ∈ s then s else t :: s

/-- The loop of `SourcePackages::parse_packages` over the already
deserialized records, front to back; `none` models the `.unwrap()`
panic when a non-empty `Source` field has no whitespace-delimited
token. -/
def parse_packagesAux (acc : List String) : List BinaryPackage → Option (List String)
  | [] => some acc
  | bp :: rest =>
    if bp.multi_arch = "same" then
      if bp.source.length > 0 then
        match firstTokenStr bp.source with
        | none => none
        | some t => parse_packagesAux (insertName t acc) rest
      else parse_packagesAux (insertName bp.package acc) rest
    else parse_packagesAux acc rest

/-- `SourcePackages::parse_packages` on one record list. -/
def parse_packages (bps : List BinaryPackage) : Option (List String) :=
  parse_packagesAux [] bps

/-- The name an index entry contributes, as the spec words it: the
first whitespace-delimited token of `Source` when that field is
non-empty, the package name otherwise. -/
def contributedName (bp : BinaryPackage) : Option String :=
  if bp.source.length > 0 then firstTokenStr bp.source else some bp.package

/-! ### Equivalence up to signer-map iteration order (for C8) -/

/-- Relate two optional values componentwise. -/
def optRel {A : Type} (r : A → A → Prop) : Option A → Option A → Prop
  | some a, some b => r a b
  | none, none => True
  | _, _ => False

/-- Two `BuiltOnBuildd` values carrying the same signer map, possibly
iterated in a different order. -/
def bEquiv (b1 b2 : BuiltOnBuildd) : Prop :=
  b1.verdict = b2.verdict ∧ b1.signed_by.Perm b2.signed_by

/-- Two `PolicyInfo` values equal up to signer-map iteration order. -/
def piEquiv (p1 p2 : PolicyInfo) : Prop :=
  p1.age = p2.age ∧ p1.extras = p2.extras ∧ optRel bEquiv p1.builtonbuildd p2.builtonbuildd

/-- Two `ExcusesItem` values equal up to signer-map iteration order. -/
def itemEquiv (i1 i2 : ExcusesItem) : Prop :=
  i1.is_candidate = i2.is_candidate ∧ i1.new_version = i2.new_version ∧
    i1.old_version = i2.old_version ∧ i1.item_name = i2.item_name ∧
    i1.source = i2.source ∧
    i1.invalidated_by_other_package = i2.invalidated_by_other_package ∧
    i1.component = i2.component ∧ i1.missing_builds = i2.missing_builds ∧
    optRel piEquiv i1.policy_info i2.policy_info

/-- Two directives equal up to the order of their architecture lists. -/
def dirEquiv (d1 d2 : ToBinNMU) : Prop :=
  d1.source = d2.source ∧ d1.version = d2.version ∧
    d1.architectures.Perm d2.architectures

/-- Relate two loop-body outcomes up to architecture order. -/
def resultEquiv : StepResult → StepResult → Prop
  | .panic, .panic => True
  | .skip, .skip => True
  | .emit d1, .emit d2 => dirEquiv d1 d2
  | _, _ => False

/-! ### Lemmas about the string utilities -/

theorem splitOnce_eq_none_iff (l : List Char) (sep : Char) :
    splitOnce l sep = none ↔ sep ∉ l := by
  induction l with
  | nil => simp [splitOnce]
  | cons c rest ih =>
    by_cases hc : c = sep
    · subst hc
      simp [splitOnce]
    · rcases h : splitOnce rest sep with _ | ⟨a, b⟩
      · have hrest : sep ∉ rest := ih.mp h
        simp only [splitOnce, if_neg hc, h]
        constructor
        · intro _ hmem
          rcases List.mem_cons.mp hmem with h1 | h2
          · exact hc h1.symm
          · exact hrest h2
        · intro _
          trivial
      · have hrest : sep ∈ rest := by
          by_contra hn
          exact absurd (ih.mpr hn) (by simp [h])
        simp only [splitOnce, if_neg hc, h]
        constructor
        · intro hcontra
          exact absurd hcontra (by simp)
        · intro hmem
          exact absurd (List.mem_cons_of_mem c hrest) hmem

theorem splitOnce_append (a b : List Char) (sep : Char) (h : sep ∉ a) :
    splitOnce (a ++ sep :: b) sep = some (a, b) := by
  induction a with
  | nil => simp [splitOnce]
  | cons c a2 ih =>
    have hc : c ≠ sep := fun hh => h (hh ▸ List.mem_cons_self c a2)
    have h2 : sep ∉ a2 := fun hh => h (List.mem_cons_of_mem c hh)
    simp [splitOnce, hc, ih h2]

theorem rsplitOnce_eq_none_iff (l : List Char) (sep : Char) :
    rsplitOnce l sep = none ↔ sep ∉ l := by
  unfold rsplitOnce
  rcases h : splitOnce l.reverse sep with _ | ⟨a, b⟩
  · have hm := (splitOnce_eq_none_iff l.reverse sep).mp h
    simp only [List.mem_reverse] at hm
    simp [hm]
  · have hm : sep ∈ l.reverse := by
      by_contra hn
      exact absurd ((splitOnce_eq_none_iff l.reverse sep).mpr hn) (by simp [h])
    simp only [List.mem_reverse] at hm
    simp [hm]

theorem rsplitOnce_append (a b : List Char) (sep : Char) (h : sep ∉ b) :
    rsplitOnce (a ++ sep :: b) sep = some (a, b) := by
  unfold rsplitOnce
  have hrev : (a ++ sep :: b).reverse = b.reverse ++ sep :: a.reverse := by
    simp [List.reverse_append]
  rw [hrev, splitOnce_append _ _ _ (by simpa using h)]
  simp

theorem digitChar_isDigit (d : Nat) (h : d < 10) : (Nat.digitChar d).isDigit = true := by
  interval_cases d <;> decide

theorem digitChar_toNat (d : Nat) (h : d < 10) : (Nat.digitChar d).toNat - 48 = d := by
  interval_cases d <;> decide

theorem natToChars_ne_nil (n : Nat) : natToChars n ≠ [] := by
  unfold natToChars
  split
  · simp
  · rename_i h
    simp only [ne_eq, List.reverse_eq_nil_iff, List.map_eq_nil_iff]
    exact Nat.digits_ne_nil_iff_ne_zero.mpr h

theorem natToChars_all_digit (n : Nat) : ∀ c ∈ natToChars n, c.isDigit = true := by
  unfold natToChars
  split
  · intro c hc
    simp only [List.mem_singleton] at hc
    subst hc
    decide
  · intro c hc
    simp only [List.mem_reverse, List.mem_map] at hc
    obtain ⟨d, hd, rfl⟩ := hc
    exact digitChar_isDigit d (Nat.digits_lt_base (by norm_num) hd)

theorem foldr_digitChar_eq_ofDigits (ds : List Nat) (h : ∀ d ∈ ds, d < 10) :
    List.foldr (fun d acc => 10 * acc + ((Nat.digitChar d).toNat - 48)) 0 ds =
      Nat.ofDigits 10 ds := by
  induction ds with
  | nil => simp [Nat.ofDigits]
  | cons d ds ih =>
    have hd : d < 10 := h d (List.mem_cons_self d ds)
    have hds : ∀ x ∈ ds, x < 10 := fun x hx => h x (List.mem_cons_of_mem d hx)
    simp only [List.foldr_cons, ih hds, Nat.ofDigits_cons, digitChar_toNat d hd]
    omega

theorem digitsVal_natToChars (n : Nat) : digitsVal (natToChars n) = n := by
  unfold natToChars
  split
  · rename_i h
    rw [h]
    decide
  · rename_i h
    unfold digitsVal
    rw [List.foldl_reverse, List.foldr_map]
    rw [foldr_digitChar_eq_ofDigits _ (fun d hd => Nat.digits_lt_base (by norm_num) hd)]
    exact_mod_cast Nat.ofDigits_digits 10 n

theorem parseU32_natToChars (n : Nat) (h : n < 4294967296) :
    parseU32 (natToChars n) = some n := by
  have hne := natToChars_ne_nil n
  have hdig := natToChars_all_digit n
  obtain ⟨c, rest, hl⟩ : ∃ c rest, natToChars n = c :: rest := by
    rcases hcase : natToChars n with _ | ⟨c, r⟩
    · exact absurd hcase hne
    · exact ⟨c, r, rfl⟩
  have hc : c.isDigit = true := hdig c (hl ▸ List.mem_cons_self c rest)
  have hcp : c ≠ '+' := by
    intro hh
    rw [hh] at hc
    exact absurd hc (by decide)
  have hval : digitsVal (c :: rest) = n := by
    rw [← hl]
    exact digitsVal_natToChars n
  have hall : (c :: rest).all Char.isDigit = true := by
    rw [List.all_eq_true]
    intro x hx
    exact hdig x (hl ▸ hx)
  rw [hl]
  simp [parseU32, stripPlus, hcp, hall, hval, h]

theorem parseU32_lt (l : List Char) (n : Nat) (h : parseU32 l = some n) :
    n < 4294967296 := by
  unfold parseU32 at h
  simp only at h
  split_ifs at h with h1 h2 h3
  simp_all

theorem isUpstreamChar_ne_colon {c : Char} (h : isUpstreamChar c = true) : c ≠ ':' := by
  rintro rfl
  exact absurd h (by decide)

theorem isRevisionChar_ne_colon {c : Char} (h : isRevisionChar c = true) : c ≠ ':' := by
  rintro rfl
  exact absurd h (by decide)

theorem isRevisionChar_ne_hyphen {c : Char} (h : isRevisionChar c = true) : c ≠ '-' := by
  rintro rfl
  exact absurd h (by decide)

theorem isDigit_ne_colon {c : Char} (h : c.isDigit = true) : c ≠ ':' := by
  rintro rfl
  exact absurd h (by decide)

/-! ### Lemmas about `PackageVersion.new` and parsing -/

theorem revisionOk_some_iff (r : List Char) :
    revisionOk (some r) = true ↔ r ≠ [] ∧ ∀ c ∈ r, isRevisionChar c = true := by
  simp only [revisionOk, Bool.not_eq_true', Bool.or_eq_false_iff, decide_eq_false_iff_not,
    List.any_eq_false, Bool.not_eq_true]
  constructor
  · rintro ⟨h1, h2⟩
    exact ⟨h1, fun c hc => by simpa using h2 c hc⟩
  · rintro ⟨h1, h2⟩
    exact ⟨h1, fun c hc => by simp [h2 c hc]⟩

theorem upstreamCond_false_iff (u : List Char) :
    (decide (u = []) || u.any fun c => !(isUpstreamChar c)) = false ↔
      u ≠ [] ∧ ∀ c ∈ u, isUpstreamChar c = true := by
  simp only [Bool.or_eq_false_iff, decide_eq_false_iff_not, List.any_eq_false,
    Bool.not_eq_true]
  constructor
  · rintro ⟨h1, h2⟩
    exact ⟨h1, fun c hc => by simpa using h2 c hc⟩
  · rintro ⟨h1, h2⟩
    exact ⟨h1, fun c hc => by simp [h2 c hc]⟩

theorem new_ok_elim {e : Option Nat} {u : List Char} {ro : Option (List Char)}
    {v : PackageVersion} (h : PackageVersion.new e u ro = .ok v) :
    v = ⟨e, u, ro⟩ ∧ u ≠ [] ∧ (∀ c ∈ u, isUpstreamChar c = true) ∧
      ∀ r, ro = some r → r ≠ [] ∧ ∀ c ∈ r, isRevisionChar c = true := by
  unfold PackageVersion.new at h
  split_ifs at h with h1 h2
  · rw [Except.ok.injEq] at h
    rw [Bool.not_eq_true] at h1
    obtain ⟨hu1, hu2⟩ := (upstreamCond_false_iff u).mp h1
    refine ⟨h.symm, hu1, hu2, ?_⟩
    rintro r rfl
    have h2' : revisionOk (some r) = true := by simpa using h2
    exact (revisionOk_some_iff r).mp h2' 

theorem new_ok_intro (e : Option Nat) (u : List Char) (ro : Option (List Char))
    (hu1 : u ≠ []) (hu2 : ∀ c ∈ u, isUpstreamChar c = true)
    (hr : ∀ r, ro = some r → r ≠ [] ∧ ∀ c ∈ r, isRevisionChar c = true) :
    PackageVersion.new e u ro = .ok ⟨e, u, ro⟩ := by
  unfold PackageVersion.new
  have hcond1 : (decide (u = []) || u.any fun c => !(isUpstreamChar c)) = false :=
    (upstreamCond_false_iff u).mpr ⟨hu1, hu2⟩
  have hcond2 : revisionOk ro = true := by
    rcases ro with _ | r
    · rfl
    · exact (revisionOk_some_iff r).mpr (hr r rfl)
  rw [if_neg (by simp [hcond1]), if_neg (by simp [hcond2])]

theorem pvEq_refl (v : PackageVersion) : pvEq v v = true := by
  simp [pvEq]

theorem tryFrom_render {l : List Char} {v : PackageVersion}
    (h : PackageVersion.tryFrom l = .ok v) :
    PackageVersion.tryFrom v.render = .ok v := by
  have h0 := h
  unfold PackageVersion.tryFrom at h
  split at h
  · -- an epoch part was split off at the first colon
    rename_i es nv hsplit
    split at h
    · exact absurd h (by simp)
    · rename_i e hp
      have he : e < 4294967296 := parseU32_lt es e hp
      have hdg := natToChars_all_digit e
      have hcd : (':' : Char) ∉ natToChars e := by
        intro hmem
        exact (isDigit_ne_colon (hdg _ hmem)) rfl
      split at h
      · -- a revision was split off at the last hyphen
        rename_i nv2 rev hr
        obtain ⟨hv, hu1, hu2, hrev⟩ := new_ok_elim h
        subst hv
        obtain ⟨hr1, hr2⟩ := hrev rev rfl
        have hhy : ('-' : Char) ∉ rev := by
          intro hmem
          exact (isRevisionChar_ne_hyphen (hr2 _ hmem)) rfl
        have hrend : PackageVersion.render ⟨some e, nv2, some rev⟩ =
            natToChars e ++ ':' :: (nv2 ++ '-' :: rev) := by
          simp [PackageVersion.render]
        rw [hrend]
        simp only [PackageVersion.tryFrom, splitOnce_append _ _ _ hcd,
          parseU32_natToChars e he, rsplitOnce_append _ _ _ hhy]
        exact new_ok_intro (some e) nv2 (some rev) hu1 hu2
          (fun r hr2' => by rw [Option.some.injEq] at hr2'; exact hr2' ▸ ⟨hr1, hr2⟩)
      · -- native version: no hyphen in the remainder
        rename_i hr
        obtain ⟨hv, hu1, hu2, _⟩ := new_ok_elim h
        subst hv
        have hhy : ('-' : Char) ∉ nv := (rsplitOnce_eq_none_iff nv '-').mp hr
        have hrend : PackageVersion.render ⟨some e, nv, none⟩ =
            natToChars e ++ ':' :: nv := by
          simp [PackageVersion.render]
        rw [hrend]
        simp only [PackageVersion.tryFrom, splitOnce_append _ _ _ hcd,
          parseU32_natToChars e he, hr]
        exact new_ok_intro (some e) nv none hu1 hu2 (fun r hr2' => by cases hr2')
  · -- no colon, hence no epoch
    rename_i hsplit
    split at h
    · rename_i nv2 rev hr
      obtain ⟨hv, hu1, hu2, hrev⟩ := new_ok_elim h
      subst hv
      obtain ⟨hr1, hr2⟩ := hrev rev rfl
      have hhy : ('-' : Char) ∉ rev := by
        intro hmem
        exact (isRevisionChar_ne_hyphen (hr2 _ hmem)) rfl
      have hcolon : (':' : Char) ∉ nv2 ++ '-' :: rev := by
        intro hmem
        rcases List.mem_append.mp hmem with h1 | h2
        · exact (isUpstreamChar_ne_colon (hu2 _ h1)) rfl
        · rcases List.mem_cons.mp h2 with h3 | h4
          · exact absurd h3 (by decide)
          · exact (isRevisionChar_ne_colon (hr2 _ h4)) rfl
      have hrend : PackageVersion.render ⟨none, nv2, some rev⟩ = nv2 ++ '-' :: rev := by
        simp [PackageVersion.render]
      rw [hrend]
      simp only [PackageVersion.tryFrom, (splitOnce_eq_none_iff _ _).mpr hcolon,
        rsplitOnce_append _ _ _ hhy]
      exact new_ok_intro none nv2 (some rev) hu1 hu2
        (fun r hr2' => by rw [Option.some.injEq] at hr2'; exact hr2' ▸ ⟨hr1, hr2⟩)
    · rename_i hr
      obtain ⟨hv, hu1, hu2, _⟩ := new_ok_elim h
      subst hv
      have hrend : PackageVersion.render ⟨none, l, none⟩ = l := by
        simp [PackageVersion.render]
      rw [hrend]
      exact h0

/-! ### Lemmas about the decision loop -/

theorem u32sub_one_eq (req : Nat) (h1 : 1 ≤ req) (h2 : req < 4294967296) :
    u32sub req 1 = req - 1 := by
  unfold u32sub
  omega

theorem u32sub_zero_one : u32sub 0 1 = 4294967295 := by
  unfold u32sub
  norm_num

theorem age_gate_iff (cur req : Nat) (h : req < 4294967296) :
    (cur < min (req / 2) (u32sub req 1)) ↔
      ((cur : Int) < min ((req / 2 : Nat) : Int) ((req : Int) - 1)) := by
  unfold u32sub
  omega

theorem processItem_skip_of_eq_versions (item : ExcusesItem)
    (h : item.new_version = item.old_version) : processItem item = .skip := by
  unfold processItem
  split_ifs with g1 <;> rfl

theorem processItem_emit_no_all {item : ExcusesItem} {d : ToBinNMU}
    (h : processItem item = .emit d) :
    Architecture.all ∉ d.architectures := by
  unfold processItem at h
  split_ifs at h
  split at h
  · exact absurd h (by simp)
  · rename_i p
    split_ifs at h
    split at h
    · exact absurd h (by simp)
    · rename_i b
      simp only at h
      split_ifs at h with hmem
      rw [StepResult.emit.injEq] at h
      subst h
      exact hmem

theorem collect_mem_no_all (items : List ExcusesItem) (ds : List ToBinNMU)
    (h : collectToBinNMU items = some ds) :
    ∀ d ∈ ds, Architecture.all ∉ d.architectures := by
  induction items generalizing ds with
  | nil =>
    intro d hd
    unfold collectToBinNMU at h
    rw [Option.some.injEq] at h
    subst h
    simp at hd
  | cons it rest ih =>
    intro d hd
    unfold collectToBinNMU at h
    split at h
    · exact absurd h (by simp)
    · exact ih ds h d hd
    · rename_i d2 hstep
      split at h
      · rename_i ds2 hrest
        rw [Option.some.injEq] at h
        subst h
        rcases List.mem_cons.mp hd with h1 | h2
        · subst h1
          exact processItem_emit_no_all hstep
        · exact ih ds2 hrest d h2
      · exact absurd h (by simp)

theorem processItem_skip_of_all_unofficial (item : ExcusesItem) (p : PolicyInfo)
    (b : BuiltOnBuildd) (sig : String)
    (hpi : item.policy_info = some p) (hb : p.builtonbuildd = some b)
    (hmem : (Architecture.all, sig) ∈ b.signed_by)
    (hsig : strEndsWith sig officialBuilddSuffix = false) :
    processItem item = .skip := by
  have hall : Architecture.all ∈ (b.signed_by.filter
      (fun q => !(strEndsWith q.2 officialBuilddSuffix))).map Prod.fst := by
    refine List.mem_map.mpr ⟨(Architecture.all, sig), ?_, rfl⟩
    refine List.mem_filter.mpr ⟨hmem, ?_⟩
    simp [hsig]
  unfold processItem
  split_ifs <;> try rfl
  rw [hpi]
  by_cases hc : check_if_binnmu_required p
  · simp [hc, hb, hall]
  · simp [hc]

theorem checkExtras_congr {p1 p2 : PolicyInfo} (h : p1.extras = p2.extras) :
    checkExtras p1 = checkExtras p2 := by
  unfold checkExtras
  rw [h]

theorem checkAge_congr {p1 p2 : PolicyInfo} (ha : p1.age = p2.age)
    (he : p1.extras = p2.extras) : checkAge p1 = checkAge p2 := by
  unfold checkAge
  rw [ha, checkExtras_congr he]

theorem check_congr {p1 p2 : PolicyInfo} (h : piEquiv p1 p2) :
    check_if_binnmu_required p1 = check_if_binnmu_required p2 := by
  obtain ⟨ha, he, hb⟩ := h
  unfold check_if_binnmu_required
  rcases h1 : p1.builtonbuildd with _ | b1 <;> rcases h2 : p2.builtonbuildd with _ | b2
  · exact checkAge_congr ha he
  · rw [h1, h2] at hb
    exact absurd hb (by simp [optRel])
  · rw [h1, h2] at hb
    exact absurd hb (by simp [optRel])
  · rw [h1, h2] at hb
    have hbe : bEquiv b1 b2 := hb
    by_cases hv : b1.verdict = Verdict.pass
    · have hv2 : b2.verdict = Verdict.pass := hbe.1 ▸ hv
      simp [hv, hv2]
    · have hv2 : ¬(b2.verdict = Verdict.pass) := by
        rw [← hbe.1]
        exact hv
      simp [hv, hv2, checkAge_congr ha he]

theorem processItem_equiv (i1 i2 : ExcusesItem) (h : itemEquiv i1 i2) :
    resultEquiv (processItem i1) (processItem i2) := by
  obtain ⟨-, hnew, hold, hname, hsrc, hinv, hcomp, hmiss, hpi⟩ := h
  unfold processItem
  rw [hnew, hold, hname, hcomp, hinv, hmiss, hsrc]
  split_ifs <;> try trivial
  rcases h1 : i1.policy_info with _ | p1 <;> rcases h2 : i2.policy_info with _ | p2
  · trivial
  · rw [h1, h2] at hpi
    exact absurd hpi (by simp [optRel])
  · rw [h1, h2] at hpi
    exact absurd hpi (by simp [optRel])
  · rw [h1, h2] at hpi
    have hpe : piEquiv p1 p2 := hpi
    simp only [check_congr hpe]
    by_cases hc : check_if_binnmu_required p2
    · have hob := hpe.2.2
      rcases hb1 : p1.builtonbuildd with _ | b1 <;> rcases hb2 : p2.builtonbuildd with _ | b2
      · simp [hc, resultEquiv]
      · rw [hb1, hb2] at hob
        exact absurd hob (by simp [optRel])
      · rw [hb1, hb2] at hob
        exact absurd hob (by simp [optRel])
      · rw [hb1, hb2] at hob
        have hbe : bEquiv b1 b2 := hob
        have harchs : ((b1.signed_by.filter
            (fun q => !(strEndsWith q.2 officialBuilddSuffix))).map Prod.fst).Perm
            ((b2.signed_by.filter
              (fun q => !(strEndsWith q.2 officialBuilddSuffix))).map Prod.fst) :=
          (hbe.2.filter _).map Prod.fst
        by_cases hmem : Architecture.all ∈ ((b1.signed_by.filter
            (fun q => !(strEndsWith q.2 officialBuilddSuffix))).map Prod.fst)
        · have hmem2 := harchs.mem_iff.mp hmem
          simp [hc, hmem, hmem2, resultEquiv]
        · have hmem2 : Architecture.all ∉ ((b2.signed_by.filter
              (fun q => !(strEndsWith q.2 officialBuilddSuffix))).map Prod.fst) :=
            fun hx => hmem (harchs.mem_iff.mpr hx)
          simp [hc, hmem, hmem2, resultEquiv, dirEquiv]
          exact harchs
    · simp [hc, resultEquiv]

theorem collect_equiv (l1 l2 : List ExcusesItem) (h : List.Forall₂ itemEquiv l1 l2) :
    optRel (List.Forall₂ dirEquiv) (collectToBinNMU l1) (collectToBinNMU l2) := by
  induction h with
  | nil =>
    unfold collectToBinNMU
    exact List.Forall₂.nil
  | cons hit hrest ih =>
    rename_i a b l1t l2t
    have hstep := processItem_equiv _ _ hit
    unfold collectToBinNMU
    rcases hs1 : processItem a with _ | _ | d1 <;> rcases hs2 : processItem b with _ | _ | d2 <;>
      rw [hs1, hs2] at hstep <;> try exact hstep.elim
    · trivial
    · exact ih
    · rcases hc1 : collectToBinNMU l1t with _ | ds1 <;>
        rcases hc2 : collectToBinNMU l2t with _ | ds2 <;> rw [hc1, hc2] at ih
      · trivial
      · exact ih.elim
      · exact ih.elim
      · exact List.Forall₂.cons hstep ih

/-! ### Lemmas about the source-package index -/

theorem insertName_mem (x t : String) (s : List String) :
    x ∈ insertName t s ↔ x = t ∨ x ∈ s := by
  unfold insertName
  split_ifs with h
  · constructor
    · intro hx
      exact Or.inr hx
    · rintro (rfl | hx)
      · exact h
      · exact hx
  · simp [List.mem_cons]

theorem parse_packagesAux_mem (bps : List BinaryPackage) :
    ∀ acc S, parse_packagesAux acc bps = some S →
    ∀ x, x ∈ S ↔ x ∈ acc ∨
      ∃ bp ∈ bps, bp.multi_arch = "same" ∧ contributedName bp = some x := by
  induction bps with
  | nil =>
    intro acc S h x
    unfold parse_packagesAux at h
    rw [Option.some.injEq] at h
    subst h
    simp
  | cons bp rest ih =>
    intro acc S h x
    unfold parse_packagesAux at h
    split_ifs at h with h1 h2
    · split at h
      · exact absurd h (by simp)
      · rename_i t ht
        rw [ih _ _ h x, insertName_mem, List.exists_mem_cons_iff]
        have hcn : contributedName bp = some t := by
          unfold contributedName
          rw [if_pos h2, ht]
        constructor
        · rintro ((rfl | hacc) | hex)
          · exact Or.inr (Or.inl ⟨h1, hcn⟩)
          · exact Or.inl hacc
          · exact Or.inr (Or.inr hex)
        · rintro (hacc | ⟨hsame, hcnx⟩ | hex)
          · exact Or.inl (Or.inr hacc)
          · rw [hcn, Option.some.injEq] at hcnx
            exact Or.inl (Or.inl hcnx.symm)
          · exact Or.inr hex
    · rw [ih _ _ h x, insertName_mem, List.exists_mem_cons_iff]
      have hcn : contributedName bp = some bp.package := by
        unfold contributedName
        rw [if_neg h2]
      constructor
      · rintro ((rfl | hacc) | hex)
        · exact Or.inr (Or.inl ⟨h1, hcn⟩)
        · exact Or.inl hacc
        · exact Or.inr (Or.inr hex)
      · rintro (hacc | ⟨hsame, hcnx⟩ | hex)
        · exact Or.inl (Or.inr hacc)
        · rw [hcn, Option.some.injEq] at hcnx
          exact Or.inl (Or.inl hcnx.symm)
        · exact Or.inr hex
    · rw [ih _ _ h x, List.exists_mem_cons_iff]
      have hno : ¬(bp.multi_arch = "same" ∧ contributedName bp = some x) :=
        fun hp => h1 hp.1
      tauto

/-! ### Claim theorems -/

/-- C1: the claim says an item passing gates 1-7 with `policy_info`
present but `builtonbuildd` absent is silently excluded and the run
continues.  The code instead panics on the `.unwrap()` of the absent
`builtonbuildd` whenever eligibility succeeds (here: no age policy,
empty extras), aborting the whole run, so no directive is produced even
for a later well-formed item. -/
theorem c1_builtonbuildd_absent_panics :
    processItem ⟨true, "1.1-2", "1.1-1", "foo", "foo", none, some .main, none,
      some ⟨none, none, []⟩⟩ = .panic ∧
    collectToBinNMU [⟨true, "1.1-2", "1.1-1", "foo", "foo", none, some .main, none,
        some ⟨none, none, []⟩⟩,
      ⟨true, "2.0-2", "2.0-1", "bar", "bar", none, some .main, none,
        some ⟨none, some ⟨[(.amd64, "human@example.org")], .rejectedTemporarily⟩, []⟩⟩] =
      none ∧
    collectToBinNMU [⟨true, "2.0-2", "2.0-1", "bar", "bar", none, some .main, none,
      some ⟨none, some ⟨[(.amd64, "human@example.org")], .rejectedTemporarily⟩, []⟩⟩] =
      some [⟨"bar", "2.0-2", [.amd64]⟩] := by
  refine ⟨by decide, by decide, by decide⟩

/-- C2 counterexample: the claim says an item whose proposed and
currently-migrated versions are equal under ArchiveVersion-equality
(e.g. `0:1.0-1` vs `1.0-1`) is excluded.  The code compares the raw
strings, so this item passes the gate and a directive is emitted. -/
theorem c2_counterexample :
    PackageVersion.tryFrom "0:1.0-1".data = .ok ⟨some 0, "1.0".data, some "1".data⟩ ∧
    PackageVersion.tryFrom "1.0-1".data = .ok ⟨none, "1.0".data, some "1".data⟩ ∧
    pvEq ⟨some 0, "1.0".data, some "1".data⟩ ⟨none, "1.0".data, some "1".data⟩ = true ∧
    collectToBinNMU [⟨true, "0:1.0-1", "1.0-1", "foo", "foo", none, some .main, none,
      some ⟨none, some ⟨[(.amd64, "human@example.org")], .rejectedTemporarily⟩, []⟩⟩] =
      some [⟨"foo", "0:1.0-1", [.amd64]⟩] := by
  refine ⟨by decide, by decide, by decide, by decide⟩

/-- C2 amended: the engine skips an item whenever its proposed version
equals its currently-migrated version as raw strings; ArchiveVersion
equality is not consulted by this gate. -/
theorem c2_amended_string_equality (item : ExcusesItem)
    (h : item.new_version = item.old_version) : processItem item = .skip :=
  processItem_skip_of_eq_versions item h

theorem c2_amended_witness :
    processItem ⟨true, "1.0-1", "1.0-1", "c2w", "c2w", none, some .main, none, none⟩ =
      .skip :=
  c2_amended_string_equality
    ⟨true, "1.0-1", "1.0-1", "c2w", "c2w", none, some .main, none, none⟩ rfl

/-- C3: `check_if_binnmu_required` equals the spec's description (false
when the build-provenance verdict passed; false when an age policy is
present and the current age is below `min(required_age / 2,
required_age - 1)` in exact integer arithmetic, for any deserializable
`u32` age requirement; otherwise true iff all extras verdicts pass);
moreover age-requirement 10 with current age 4 is excluded while
current age 5 passes the age gate. -/
theorem c3_is_binnmu_required_spec :
    (∀ p : PolicyInfo, (∀ a, p.age = some a → a.age_requirement < 4294967296) →
      check_if_binnmu_required p = spec_is_binnmu_required p) ∧
    (∀ p : PolicyInfo, ∀ a, p.age = some a → a.age_requirement = 10 →
      a.current_age = 4 → check_if_binnmu_required p = false) ∧
    check_if_binnmu_required ⟨some ⟨10, 5, .rejectedTemporarily⟩, none, []⟩ = true := by
  refine ⟨?_, ?_, by decide⟩
  · intro p hbound
    unfold check_if_binnmu_required spec_is_binnmu_required
    have hage : checkAge p = specAgeGate p := by
      unfold checkAge specAgeGate
      rcases ha : p.age with _ | a
      · unfold checkExtras specExtrasPass
        rfl
      · have hb := hbound a ha
        have hiff := age_gate_iff a.current_age a.age_requirement hb
        show (if a.current_age < min (a.age_requirement / 2) (u32sub a.age_requirement 1)
            then false else checkExtras p) =
          (if (a.current_age : Int) <
              min ((a.age_requirement / 2 : Nat) : Int) ((a.age_requirement : Int) - 1)
            then false else specExtrasPass p)
        by_cases hlt : a.current_age < min (a.age_requirement / 2) (u32sub a.age_requirement 1)
        · rw [if_pos hlt, if_pos (hiff.mp hlt)]
        · rw [if_neg hlt, if_neg (fun hc => hlt (hiff.mpr hc))]
          unfold checkExtras specExtrasPass
          rfl
    rcases hbb : p.builtonbuildd with _ | b
    · exact hage
    · by_cases hv : b.verdict = Verdict.pass
      · simp [hv]
      · simp [hv, hage]
  · intro p a ha h10 h4
    unfold check_if_binnmu_required
    have hlt : a.current_age < min (a.age_requirement / 2) (u32sub a.age_requirement 1) := by
      rw [h10, h4]
      decide
    have hage : checkAge p = false := by
      unfold checkAge
      simp [ha, hlt]
    rcases hbb : p.builtonbuildd with _ | b
    · exact hage
    · by_cases hv : b.verdict = Verdict.pass
      · simp [hv]
      · simp [hv, hage]

theorem c3_witness :
    check_if_binnmu_required ⟨some ⟨10, 4, .pass⟩, none, []⟩ =
      spec_is_binnmu_required ⟨some ⟨10, 4, .pass⟩, none, []⟩ ∧
    check_if_binnmu_required ⟨some ⟨10, 4, .pass⟩, none, []⟩ = false :=
  ⟨c3_is_binnmu_required_spec.1 ⟨some ⟨10, 4, .pass⟩, none, []⟩
      (fun a ha => by cases ha; decide),
    c3_is_binnmu_required_spec.2.1 ⟨some ⟨10, 4, .pass⟩, none, []⟩ ⟨10, 4, .pass⟩
      rfl rfl rfl⟩

/-- C4 counterexample: the claim says every emitted directive carries
the wildcard or a non-empty architecture set.  An item whose
build-provenance verdict is not pass but whose only signer is official
is emitted with an empty architecture list, and the printed line for a
non-multi-arch:same source then has an empty architecture field. -/
theorem c4_counterexample :
    collectToBinNMU [⟨true, "1.2-1", "1.1-1", "c4", "c4", none, some .main, none,
      some ⟨none, some ⟨[(.amd64, "buildd_x86@buildd.debian.org")], .rejectedTemporarily⟩,
        []⟩⟩] =
      some [⟨"c4", "1.2-1", []⟩] ∧
    is_ma_same [] "c4" = false ∧
    outputLine [] ⟨"c4", "1.2-1", []⟩ =
      "nmu c4_1.2-1 .  . unstable . -m \"Rebuild on buildd\"" := by
  refine ⟨by decide, by decide, by decide⟩

/-- C4 amended: every emitted directive's architecture list never
contains the architecture-independent pseudo-architecture `all`, but it
may be empty; non-emptiness is not guaranteed. -/
theorem c4_amended_no_arch_all (items : List ExcusesItem) (ds : List ToBinNMU)
    (h : collectToBinNMU items = some ds) :
    ∀ d ∈ ds, Architecture.all ∉ d.architectures :=
  collect_mem_no_all items ds h

theorem c4_amended_witness :
    Architecture.all ∉ (⟨"c4w", "1.2-1", [Architecture.amd64]⟩ : ToBinNMU).architectures :=
  c4_amended_no_arch_all
    [⟨true, "1.2-1", "1.1-1", "c4w", "c4w", none, some .main, none,
      some ⟨none, some ⟨[(.amd64, "human@example.org")], .rejectedTemporarily⟩, []⟩⟩]
    [⟨"c4w", "1.2-1", [Architecture.amd64]⟩] (by decide)
    ⟨"c4w", "1.2-1", [Architecture.amd64]⟩ (by decide)

/-- C5 counterexample: the claim says the epoch is split off at the
LAST colon, with `InvalidEpoch` when that prefix is non-numeric.  On
`1:2:3-1` the last-colon reading gives `InvalidEpoch` (prefix `1:2`),
but the code splits at the FIRST colon and fails later with
`InvalidUpstreamVersion` instead. -/
theorem c5_counterexample :
    PackageVersion.tryFrom "1:2:3-1".data = .error .invalidUpstreamVersion ∧
    specTryFromLastColon "1:2:3-1".data = .error .invalidEpoch ∧
    VersionError.invalidUpstreamVersion ≠ VersionError.invalidEpoch := by
  refine ⟨by decide, by decide, by decide⟩

/-- C5 amended: parsing splits at the FIRST `:` to extract the epoch,
returning `InvalidEpoch` when that prefix does not parse as a `u32`,
and splits the remainder at the LAST `-`, so `1.0-2-1` yields upstream
version `1.0-2` and revision `1`. -/
theorem c5_amended_first_colon :
    (∀ es rest, (':' : Char) ∉ es → parseU32 es = none →
      PackageVersion.tryFrom (es ++ ':' :: rest) = .error .invalidEpoch) ∧
    PackageVersion.tryFrom "1.0-2-1".data =
      .ok ⟨none, "1.0-2".data, some "1".data⟩ := by
  constructor
  · intro es rest hmem hp
    simp only [PackageVersion.tryFrom, splitOnce_append _ _ _ hmem, hp]
  · decide

theorem c5_amended_witness :
    (':' : Char) ∉ "abc".data ∧ parseU32 "abc".data = none ∧
    PackageVersion.tryFrom ("abc".data ++ ':' :: "1-1".data) = .error .invalidEpoch :=
  ⟨by decide, by decide, c5_amended_first_colon.1 "abc".data "1-1".data
    (by decide) (by decide)⟩

/-- C6: parsing a valid version string and rendering the result parses
back to a value equal under the crate's version equality; and an
explicit epoch `0:` is equal to an absent epoch for every valid
upstream version and revision. -/
theorem c6_parse_render_roundtrip :
    (∀ l v, PackageVersion.tryFrom l = .ok v →
      ∃ v2, PackageVersion.tryFrom v.render = .ok v2 ∧ pvEq v2 v = true) ∧
    (∀ u r, u ≠ [] → (∀ c ∈ u, isUpstreamChar c = true) →
      r ≠ [] → (∀ c ∈ r, isRevisionChar c = true) →
      PackageVersion.tryFrom ('0' :: ':' :: (u ++ '-' :: r)) = .ok ⟨some 0, u, some r⟩ ∧
      PackageVersion.tryFrom (u ++ '-' :: r) = .ok ⟨none, u, some r⟩ ∧
      pvEq ⟨some 0, u, some r⟩ ⟨none, u, some r⟩ = true) := by
  constructor
  · intro l v h
    exact ⟨v, tryFrom_render h, pvEq_refl v⟩
  · intro u r hu1 hu2 hr1 hr2
    have hhy : ('-' : Char) ∉ r := fun hmem => (isRevisionChar_ne_hyphen (hr2 _ hmem)) rfl
    have hrsp : rsplitOnce (u ++ '-' :: r) '-' = some (u, r) := rsplitOnce_append _ _ _ hhy
    have hcolon : (':' : Char) ∉ u ++ '-' :: r := by
      intro hmem
      rcases List.mem_append.mp hmem with h1 | h2
      · exact (isUpstreamChar_ne_colon (hu2 _ h1)) rfl
      · rcases List.mem_cons.mp h2 with h3 | h4
        · exact absurd h3 (by decide)
        · exact (isRevisionChar_ne_colon (hr2 _ h4)) rfl
    refine ⟨?_, ?_, ?_⟩
    · have hsp : splitOnce ('0' :: ':' :: (u ++ '-' :: r)) ':' =
          some (['0'], u ++ '-' :: r) := by
        have h0 := splitOnce_append ['0'] (u ++ '-' :: r) ':' (by decide)
        simpa using h0
      simp only [PackageVersion.tryFrom, hsp,
        show parseU32 ['0'] = some 0 from by decide, hrsp]
      exact new_ok_intro (some 0) u (some r) hu1 hu2
        (fun r2 hr2x => by rw [Option.some.injEq] at hr2x; exact hr2x ▸ ⟨hr1, hr2⟩)
    · simp only [PackageVersion.tryFrom, (splitOnce_eq_none_iff _ _).mpr hcolon, hrsp]
      exact new_ok_intro none u (some r) hu1 hu2
        (fun r2 hr2x => by rw [Option.some.injEq] at hr2x; exact hr2x ▸ ⟨hr1, hr2⟩)
    · simp [pvEq, PackageVersion.epoch_or_0]

theorem c6_witness :
    (∃ v2, PackageVersion.tryFrom
        (PackageVersion.render ⟨some 1, "2.0".data, some "1".data⟩) = .ok v2 ∧
      pvEq v2 ⟨some 1, "2.0".data, some "1".data⟩ = true) ∧
    PackageVersion.tryFrom ('0' :: ':' :: ("2.0".data ++ '-' :: "1".data)) =
      .ok ⟨some 0, "2.0".data, some "1".data⟩ :=
  ⟨c6_parse_render_roundtrip.1 "1:2.0-1".data ⟨some 1, "2.0".data, some "1".data⟩
      (by decide),
    (c6_parse_render_roundtrip.2 "2.0".data "1".data (by decide) (by decide) (by decide)
      (by decide)).1⟩

/-- C7: whenever the build-provenance signer map assigns an unofficial
signer to the pseudo-architecture `all`, the loop body skips the item
and emits no directive for it, regardless of the other entries. -/
theorem c7_arch_all_unofficial_skipped (item : ExcusesItem) (p : PolicyInfo)
    (b : BuiltOnBuildd) (sig : String)
    (hpi : item.policy_info = some p) (hb : p.builtonbuildd = some b)
    (hmem : (Architecture.all, sig) ∈ b.signed_by)
    (hsig : strEndsWith sig officialBuilddSuffix = false) :
    processItem item = .skip :=
  processItem_skip_of_all_unofficial item p b sig hpi hb hmem hsig

theorem c7_witness :
    processItem ⟨true, "3.0-2", "3.0-1", "c7", "c7", none, some .main, none,
      some ⟨none, some ⟨[(.amd64, "x@buildd.debian.org"), (.all, "human@debian.org")],
        .rejectedTemporarily⟩, []⟩⟩ = .skip :=
  c7_arch_all_unofficial_skipped
    ⟨true, "3.0-2", "3.0-1", "c7", "c7", none, some .main, none,
      some ⟨none, some ⟨[(.amd64, "x@buildd.debian.org"), (.all, "human@debian.org")],
        .rejectedTemporarily⟩, []⟩⟩
    ⟨none, some ⟨[(.amd64, "x@buildd.debian.org"), (.all, "human@debian.org")],
      .rejectedTemporarily⟩, []⟩
    ⟨[(.amd64, "x@buildd.debian.org"), (.all, "human@debian.org")], .rejectedTemporarily⟩
    "human@debian.org" rfl rfl (by decide) (by decide)

/-- C8 counterexample: the claim says two runs over a fixed snapshot
produce identical output lines including the order of architecture
tokens.  The token order follows the signer map's `HashMap` iteration
order, which the snapshot contents do not determine: two snapshots
whose signer maps hold exactly the same entries (a permutation) yield
different directive lists and different printed lines. -/
theorem c8_counterexample :
    ([(Architecture.amd64, "h1@example.org"), (Architecture.arm64, "h2@example.org")] :
        List (Architecture × String)).Perm
      [(Architecture.arm64, "h2@example.org"), (Architecture.amd64, "h1@example.org")] ∧
    collectToBinNMU [⟨true, "1.1-2", "1.1-1", "c8", "c8", none, some .main, none,
        some ⟨none, some ⟨[(.amd64, "h1@example.org"), (.arm64, "h2@example.org")],
          .rejectedTemporarily⟩, []⟩⟩] ≠
      collectToBinNMU [⟨true, "1.1-2", "1.1-1", "c8", "c8", none, some .main, none,
        some ⟨none, some ⟨[(.arm64, "h2@example.org"), (.amd64, "h1@example.org")],
          .rejectedTemporarily⟩, []⟩⟩] ∧
    outputLine [] ⟨"c8", "1.1-2", [.amd64, .arm64]⟩ ≠
      outputLine [] ⟨"c8", "1.1-2", [.arm64, .amd64]⟩ := by
  refine ⟨by decide, by decide, by decide⟩

/-- C8 amended: the decision loop is a pure function of the
materialized snapshot including each signer map's iteration order; for
snapshots that agree up to reordering of signer-map entries it produces
the same outcome per item and the same directive list up to a
permutation of each directive's architecture list, but the token order
itself is not determined by the snapshot contents. -/
theorem c8_amended_deterministic_up_to_perm :
    (∀ i1 i2, itemEquiv i1 i2 → resultEquiv (processItem i1) (processItem i2)) ∧
    (∀ l1 l2, List.Forall₂ itemEquiv l1 l2 →
      optRel (List.Forall₂ dirEquiv) (collectToBinNMU l1) (collectToBinNMU l2)) :=
  ⟨processItem_equiv, collect_equiv⟩

theorem c8_amended_witness :
    resultEquiv
      (processItem ⟨true, "1.1-2", "1.1-1", "c8w", "c8w", none, some .main, none,
        some ⟨none, some ⟨[(.amd64, "h1@example.org"), (.arm64, "h2@example.org")],
          .rejectedTemporarily⟩, []⟩⟩)
      (processItem ⟨true, "1.1-2", "1.1-1", "c8w", "c8w", none, some .main, none,
        some ⟨none, some ⟨[(.arm64, "h2@example.org"), (.amd64, "h1@example.org")],
          .rejectedTemporarily⟩, []⟩⟩) :=
  c8_amended_deterministic_up_to_perm.1 _ _
    ⟨rfl, rfl, rfl, rfl, rfl, rfl, rfl, rfl, ⟨rfl, rfl, ⟨rfl, by decide⟩⟩⟩

/-- C9: a binary-package index entry contributes exactly one name to
the multi-arch:same set iff its multi-arch mode is exactly `same`; the
contributed name is the first whitespace-delimited token of the Source
field when non-empty, the package name otherwise; and `is_ma_same`
answers membership of exactly this set. -/
theorem c9_ma_same_characterization (bps : List BinaryPackage) (S : List String)
    (src : String) (h : parse_packages bps = some S) :
    is_ma_same S src = true ↔
      ∃ bp ∈ bps, bp.multi_arch = "same" ∧ contributedName bp = some src := by
  unfold parse_packages at h
  have hch := parse_packagesAux_mem bps [] S h src
  unfold is_ma_same
  simp only [decide_eq_true_eq]
  rw [hch]
  simp

theorem c9_witness :
    is_ma_same ["pkgb", "src-a"] "src-a" = true ↔
      ∃ bp ∈ ([⟨"src-a (1.0)", "pkga", "same"⟩, ⟨"", "pkgb", "same"⟩,
        ⟨"x", "pkgc", "foreign"⟩] : List BinaryPackage),
        bp.multi_arch = "same" ∧ contributedName bp = some "src-a" :=
  c9_ma_same_characterization
    [⟨"src-a (1.0)", "pkga", "same"⟩, ⟨"", "pkgb", "same"⟩, ⟨"x", "pkgc", "foreign"⟩]
    ["pkgb", "src-a"] "src-a" (by decide)

/-- C10: the age-gate subtraction `age_requirement - 1` is a `u32`
subtraction that is exact only under the precondition
`age_requirement >= 1`; at `age_requirement = 0` it wraps to
`2 ^ 32 - 1` (release mode) instead of the documented value `-1`, and
the eligibility check then evaluates with the wrapped threshold. -/
theorem c10_age_requirement_underflow :
    (∀ req, 1 ≤ req → req < 4294967296 → u32sub req 1 = req - 1) ∧
    u32sub 0 1 = 4294967295 ∧
    ((u32sub 0 1 : Int) ≠ (0 : Int) - 1) ∧
    check_if_binnmu_required ⟨some ⟨0, 0, .rejectedTemporarily⟩, none, []⟩ = true := by
  refine ⟨u32sub_one_eq, u32sub_zero_one, ?_, by decide⟩
  rw [u32sub_zero_one]
  decide

theorem c10_witness : 1 ≤ 5 ∧ u32sub 5 1 = 4 :=
  ⟨by decide, c10_age_requirement_underflow.1 5 (by decide) (by decide)⟩
